import Mathlib

/-!
Verification development for the DMN-to-JSON example-value engine in
src/App.jsx. The engine consumes an already-decoded attribute tree
(produced by fast-xml-parser with attribute prefix "_" and text node
name "_text") and derives, per declared input variable, an example JSON
value mirroring the declared type. We shallowly embed the decoded data
model, the type-resolution function findItemDefinition, the synthesis
function generateExampleValue, and the extraction pipeline from
handleFileUpload. Recursion in the source has no cycle guard, so the
embedding is fuel-indexed; fuel exhaustion models unbounded recursion.
-/

namespace Transporter

/-- Example JSON values produced by the engine: null, numbers, booleans,
strings, or objects with insertion-ordered string keys. -/
inductive JsValue : Type where
  | vNull : JsValue
  | vNum : Int → JsValue
  | vBool : Bool → JsValue
  | vStr : String → JsValue
  | vObj : List (String × JsValue) → JsValue
deriving Repr

/-- Errors of a run of the engine: a thrown JS exception (caught by the
try/catch in handleFileUpload) or fuel exhaustion, which models the
unbounded recursion of the unguarded source algorithm. -/
inductive EngineError : Type where
  | thrown : String → EngineError
  | outOfFuel : EngineError
deriving Repr, DecidableEq

/-- JS truthiness of an optional string: undefined and the empty string
are falsy, every other string is truthy. -/
def jsTruthy : Option String → Bool
  | none => false
  | some s => s ≠ ""

/-- JS property key for an optional name: an undefined name used as an
object key stringifies to "undefined". -/
def jsKey : Option String → String
  | none => "undefined"
  | some s => s

/-- JS logical-or on optional strings: keeps the left operand when it is
truthy, otherwise yields the right operand. -/
def jsOr (a b : Option String) : Option String :=
  if jsTruthy a then a else b

/-- ASCII lowercasing of one character, as toLowerCase acts on the
ASCII range of the type keywords the engine compares. -/
def jsCharLower (c : Char) : Char :=
  if 'A' ≤ c && c ≤ 'Z' then Char.ofNat (c.toNat + 32) else c

/-- ASCII lowercasing of a string, modelling toLowerCase on the type
texts the engine handles. -/
def jsToLower (s : String) : String :=
  (s.data.map jsCharLower).asString

/-- JS object property assignment acc[k] = v: an existing key keeps its
position and gets the new value, a new key is appended. -/
def objInsert {α : Type} : List (String × α) → String → α → List (String × α)
  | [], k, v => [(k, v)]
  | (k', v') :: rest, k, v =>
      if k' = k then (k', v) :: rest else (k', v') :: objInsert rest k v

/-- Property lookup in an insertion-ordered object. -/
def objLookup {α : Type} : List (String × α) → String → Option α
  | [], _ => none
  | (k', v) :: rest, k => if k' = k then some v else objLookup rest k

/-- Left fold with early exit on error; models Array.prototype.reduce
over a callback that can throw or diverge. -/
def jsReduce {β α : Type} (step : β → α → Except EngineError β) :
    β → List α → Except EngineError β
  | acc, [] => Except.ok acc
  | acc, x :: rest => do
      let acc' ← step acc x
      jsReduce step acc' rest

/-- Decoded dmn:variable child of an inputData element; the engine reads
only its _typeRef attribute. -/
structure DmnVariable : Type where
  variableTypeRef : Option String
deriving Repr, DecidableEq

/-- Decoded dmn:inputData element: _name and _id attributes and the
single dmn:variable child (absent if the element had none). -/
structure InputData : Type where
  nameAttr : Option String
  dmnVariable : Option DmnVariable
  idAttr : Option String
deriving Repr, DecidableEq

/-- Decoded dmn:allowedValues element; the engine reads only its direct
text content (textNodeName "_text"). -/
structure AllowedValue : Type where
  textNode : Option String
deriving Repr, DecidableEq

/-- Decoded dmn:itemComponent element: _name attribute and the text of
the dmn:typeRef child element. -/
structure ItemComponent : Type where
  nameAttr : Option String
  dmnTypeRef : Option String
deriving Repr, DecidableEq

/-- Decoded dmn:itemDefinition element: _name and _typeRef attributes,
the (array-normalized) dmn:itemComponent children, the dmn:allowedValues
children and the text of a dmn:typeRef child element. -/
structure ItemDef : Type where
  nameAttr : Option String
  dmnItemComponent : Option (List ItemComponent)
  dmnAllowedValues : Option (List AllowedValue)
  dmnTypeRef : Option String
  typeRefAttr : Option String
deriving Repr, DecidableEq

/-- Decoded dmn:definitions element: the inputData and itemDefinition
child lists, each absent when the document declared none. -/
structure Definitions : Type where
  dmnInputData : Option (List InputData)
  dmnItemDefinition : Option (List ItemDef)
deriving Repr, DecidableEq

/-- A parsed document: the optional dmn:definitions root. -/
structure Document : Type where
  dmnDefinitions : Option Definitions
deriving Repr, DecidableEq

/-- Resolved component record built by findItemDefinition: the JS object
with fields name, typeRef and components (null or a nested list). -/
inductive Component : Type where
  | mk : Option String → Option String → Option (List Component) → Component
deriving Repr

/-- The name field of a resolved component record. -/
def Component.name : Component → Option String
  | .mk n _ _ => n

/-- The typeRef field of a resolved component record. -/
def Component.typeRef : Component → Option String
  | .mk _ t _ => t

/-- The components field of a resolved component record. -/
def Component.components : Component → Option (List Component)
  | .mk _ _ c => c

/-- Monadic map over itemComponent children mirroring the Array map in
findItemDefinition: each child resolves its typeRef recursively when
that typeRef is truthy, else its components field is null. -/
def fidMapComponents
    (fid : Option String → Except EngineError (Option (List Component))) :
    List ItemComponent → Except EngineError (List Component)
  | [] => Except.ok []
  | c :: rest => do
      let comps ← if jsTruthy c.dmnTypeRef then fid c.dmnTypeRef else pure none
      let tail ← fidMapComponents fid rest
      pure (Component.mk c.nameAttr c.dmnTypeRef comps :: tail)

/-- Embedding of findItemDefinition (src/App.jsx lines 89-99): find the
item definition whose _name equals the typeRef; if absent return null;
otherwise map its itemComponent children, recursing on each truthy
child typeRef. Fuel-indexed because the source has no cycle guard. -/
def findItemDefinition :
    Nat → List ItemDef → Option String → Except EngineError (Option (List Component))
  | 0 => fun _ _ => Except.error EngineError.outOfFuel
  | fuel + 1 => fun itemDefinitions typeRef =>
      match itemDefinitions.find? (fun d => d.nameAttr == typeRef) with
      | none => Except.ok none
      | some definition =>
          (fidMapComponents (findItemDefinition fuel itemDefinitions)
              (definition.dmnItemComponent.getD [])).map some

/-- Classification of a base-type string used in generateExampleValue
lines 123-126 and 131-133: the strict comparisons give 0 for "number"
and true for "boolean", and otherwise the string "example_" followed by
the lowercased type text. -/
def exampleForType (type : String) : JsValue :=
  if type = "number" then JsValue.vNum 0
  else if type = "boolean" then JsValue.vBool true
  else JsValue.vStr ("example_" ++ jsToLower type)

/-- Scanner for the regex pattern of quote-delimited nonempty runs used
on allowed-values text (line 111): walks the characters with the run
collected so far; a closing quote after a nonempty run emits it, while
an immediately repeated quote restarts the run. -/
def extractQuotedAux : List Char → Option (List Char) → List String → List String
  | [], _, acc => acc.reverse
  | c :: rest, none, acc =>
      if c = '"' then extractQuotedAux rest (some []) acc
      else extractQuotedAux rest none acc
  | c :: rest, some cur, acc =>
      if c = '"' then
        if cur = [] then extractQuotedAux rest (some []) acc
        else extractQuotedAux rest none (cur.reverse.asString :: acc)
      else extractQuotedAux rest (some (c :: cur)) acc

/-- All quoted literals of an allowed-values text, in order, with the
surrounding quotes stripped: the source matches the quoted-run pattern
globally and strips the leading and trailing quote of each match. -/
def extractQuoted (s : String) : List String :=
  extractQuotedAux s.data none []

/-- Example value for a definition carrying allowed values (lines
110-112): the first quoted literal of the first allowedValues node text
when one exists, else the lowercased _typeRef attribute defaulting to
"string". -/
def allowedValuesExample (d : ItemDef) : JsValue :=
  let allowedValues : Option (List String) :=
    d.dmnAllowedValues.bind (fun l =>
      l.head?.bind (fun a0 =>
        a0.textNode.bind (fun t =>
          match extractQuoted t with
          | [] => none
          | vs => some vs)))
  match allowedValues.bind List.head? with
  | some v =>
      if v = "" then JsValue.vStr (jsToLower (d.typeRefAttr.getD "string"))
      else JsValue.vStr v
  | none => JsValue.vStr (jsToLower (d.typeRefAttr.getD "string"))

/-- One step of the nested reduce in the composite branch of
generateExampleValue (lines 114-121): re-resolve the child typeRef when
truthy and synthesize a singleton component list for the child. -/
def gevNestedStep
    (gev : Option (List Component) → List ItemDef → Except EngineError JsValue)
    (fid : List ItemDef → Option String → Except EngineError (Option (List Component)))
    (itemDefinitions : List ItemDef)
    (nestedAcc : List (String × JsValue)) (comp : ItemComponent) :
    Except EngineError (List (String × JsValue)) :=
  Except.bind
    (if jsTruthy comp.dmnTypeRef then fid itemDefinitions comp.dmnTypeRef
     else Except.ok none)
    (fun subComponents =>
      Except.map (fun v => objInsert nestedAcc (jsKey comp.nameAttr) v)
        (gev (some [Component.mk comp.nameAttr comp.dmnTypeRef subComponents]) itemDefinitions))

/-- One step of the reduce in generateExampleValue (lines 105-135): look
the component typeRef up among the item definitions when truthy; a found
definition without components but with allowedValues takes the quoted
literal, a found definition with components builds the nested object, a
found plain definition classifies its declared base type; an unresolved
truthy typeRef recurses into the precomputed components (null for a
lookup miss), and a falsy typeRef classifies the typeRef text. -/
def gevStep
    (gev : Option (List Component) → List ItemDef → Except EngineError JsValue)
    (fid : List ItemDef → Option String → Except EngineError (Option (List Component)))
    (itemDefinitions : List ItemDef)
    (acc : List (String × JsValue)) (component : Component) :
    Except EngineError (List (String × JsValue)) :=
  match (if jsTruthy component.typeRef then
          itemDefinitions.find? (fun d => d.nameAttr == component.typeRef)
        else none) with
  | some d =>
      if (d.dmnItemComponent.getD []).isEmpty && d.dmnAllowedValues.isSome then
        Except.ok (objInsert acc (jsKey component.name) (allowedValuesExample d))
      else if 0 < (d.dmnItemComponent.getD []).length then
        (jsReduce (gevNestedStep gev fid itemDefinitions) [] (d.dmnItemComponent.getD [])).map
          (fun nested => objInsert acc (jsKey component.name) (JsValue.vObj nested))
      else
        Except.ok (objInsert acc (jsKey component.name)
          (exampleForType ((jsOr d.dmnTypeRef d.typeRefAttr).getD "string")))
  | none =>
      if jsTruthy component.typeRef then
        (gev component.components itemDefinitions).map
          (fun v => objInsert acc (jsKey component.name) v)
      else
        Except.ok (objInsert acc (jsKey component.name)
          (exampleForType (component.typeRef.getD "string")))

/-- Embedding of generateExampleValue (lines 102-137): null for a falsy
components argument, otherwise the reduce over the component records
starting from the empty object. Fuel-indexed: the source recursion has
no depth guard. -/
def generateExampleValue :
    Nat → Option (List Component) → List ItemDef → Except EngineError JsValue
  | 0 => fun _ _ => Except.error EngineError.outOfFuel
  | fuel + 1 => fun components itemDefinitions =>
      match components with
      | none => Except.ok JsValue.vNull
      | some comps =>
          (jsReduce (gevStep (generateExampleValue fuel) (findItemDefinition fuel)
              itemDefinitions) [] comps).map JsValue.vObj

/-- Embedding of the extraction in handleFileUpload (lines 56-73): build
the inputDataMap keyed by input name, where reading _typeRef of a
missing dmn:variable throws, and findItemDefinition called with an
absent itemDefinition list throws because undefined has no find method;
then map every entry through generateExampleValue, which receives the
empty list as its defaulted second argument when the itemDefinition
list is absent. -/
def extract (fuel : Nat) (definitions : Definitions) :
    Except EngineError (List (String × JsValue)) := do
  let inputDataMap ← jsReduce (fun acc input =>
      match input.dmnVariable with
      | none =>
          Except.error (EngineError.thrown
            "TypeError: cannot read _typeRef of undefined")
      | some v =>
          match definitions.dmnItemDefinition with
          | none =>
              Except.error (EngineError.thrown
                "TypeError: cannot read find of undefined")
          | some itemDefs =>
              (findItemDefinition fuel itemDefs v.variableTypeRef).map
                (fun comps => objInsert acc (jsKey input.nameAttr) comps))
    [] (definitions.dmnInputData.getD [])
  jsReduce (fun acc kv =>
      (generateExampleValue fuel kv.2 (definitions.dmnItemDefinition.getD [])).map
        (fun v => objInsert acc kv.1 v))
    [] inputDataMap

/-- The document-level pipeline of handleFileUpload (lines 49-73): a
missing dmn:definitions root throws the structural error, otherwise the
extraction runs. -/
def processDocument (fuel : Nat) (parsed : Document) :
    Except EngineError (List (String × JsValue)) :=
  match parsed.dmnDefinitions with
  | none => Except.error (EngineError.thrown "Invalid DMN file structure")
  | some defs => extract fuel defs

/-- Extension test on the characters of the two strings, modelling the
endsWith check on the file name. -/
def jsEndsWith (s suffix : String) : Bool :=
  suffix.data.length ≤ s.data.length &&
    s.data.drop (s.data.length - suffix.data.length) == suffix.data

/-- The component state read and written by handleFileUpload. -/
structure AppState : Type where
  jsonSchema : Option (List (String × JsValue))
  modalOpen : Bool
  validationErrors : List (String × String)
deriving Repr

/-- Embedding of handleFileUpload (lines 23-86) as a state transformer:
a filename without the .dmn extension only sets the validation error; a
successful run replaces the schema, opens the modal and clears the
errors; a thrown error only sets the processing error. Fuel exhaustion,
which models the divergence of the unguarded recursion, is mapped to a
processing error so the transformer stays total. -/
def handleFileUpload (fuel : Nat) (st : AppState) (fileName : String)
    (parsed : Document) : AppState :=
  if jsEndsWith fileName ".dmn" then
    match processDocument fuel parsed with
    | Except.ok schema =>
        { jsonSchema := some schema, modalOpen := true, validationErrors := [] }
    | Except.error (EngineError.thrown msg) =>
        { st with validationErrors := [("Processing error", msg)] }
    | Except.error EngineError.outOfFuel =>
        { st with validationErrors := [("Processing error", "unbounded recursion")] }
  else
    { st with validationErrors :=
        [("Invalid file type", "Please upload a valid DMN file with .dmn extension")] }

/-- The catalog of the concrete Applicant scenario: Person with fields
name (no typeRef) and age (typeRef Number), and Number with base type
number. -/
def defsC1 : List ItemDef :=
  [ItemDef.mk (some "Person")
      (some [ItemComponent.mk (some "name") none,
             ItemComponent.mk (some "age") (some "Number")])
      none none none,
   ItemDef.mk (some "Number") none none (some "number") none]

/-- The document of the concrete Applicant scenario: one input Applicant
of type Person over the catalog defsC1. -/
def docC1 : Document :=
  Document.mk (some (Definitions.mk
    (some [InputData.mk (some "Applicant") (some (DmnVariable.mk (some "Person"))) none])
    (some defsC1)))

/-- A catalog with a composite type A whose field b is of the composite
type B, whose own field c has no typeRef. -/
def defsC2 : List ItemDef :=
  [ItemDef.mk (some "A") (some [ItemComponent.mk (some "b") (some "B")]) none none none,
   ItemDef.mk (some "B") (some [ItemComponent.mk (some "c") none]) none none none]

/-- A document with one input X of the nested composite type A. -/
def docC2 : Document :=
  Document.mk (some (Definitions.mk
    (some [InputData.mk (some "X") (some (DmnVariable.mk (some "A"))) none])
    (some defsC2)))

/-- A catalog declaring only Person, so that Currency is undeclared. -/
def defsC3 : List ItemDef :=
  [ItemDef.mk (some "Person") none none none none]

/-- A document with one input Amount whose typeRef Currency matches no
catalog entry. -/
def docC3 : Document :=
  Document.mk (some (Definitions.mk
    (some [InputData.mk (some "Amount") (some (DmnVariable.mk (some "Currency"))) none])
    (some defsC3)))

/-- A cyclic catalog: type A has a field x whose typeRef is A itself. -/
def defsC4 : List ItemDef :=
  [ItemDef.mk (some "A") (some [ItemComponent.mk (some "x") (some "A")]) none none none]

/-- A catalog with a component-less type Age whose declared base type is
the capitalized text Number. -/
def defsC5 : List ItemDef :=
  [ItemDef.mk (some "Age") none none (some "Number") none]

/-- A catalog with a type Status whose allowed-values text contains no
quoted substring. -/
def defsC7 : List ItemDef :=
  [ItemDef.mk (some "Status") none (some [AllowedValue.mk (some "Active, Inactive")]) none none]

/-- A document with one input X of type Person but no itemDefinition
list at all. -/
def docC8 : Document :=
  Document.mk (some (Definitions.mk
    (some [InputData.mk (some "X") (some (DmnVariable.mk (some "Person"))) none])
    none))

/-- C1: for a document with exactly one declared input variable named
Applicant whose typeRef is Person, where the catalog defines Person with
fields name (no typeRef) and age (typeRef Number whose definition has
base type number), the extraction produces the mapping sending
Applicant to the object with name example_string and age 0. -/
theorem claim_C1_applicant_scenario :
    processDocument 6 docC1 =
      Except.ok [("Applicant",
        JsValue.vObj [("name", JsValue.vStr "example_string"), ("age", JsValue.vNum 0)])] := rfl

/-- C3 (code bug): an input whose typeRef Currency matches no catalog
entry yields the value null, not the string example_currency demanded
by the claim; the same holds for an unresolved field typeRef. -/
theorem claim_C3_unresolved_typeref_yields_null :
    processDocument 5 docC3 = Except.ok [("Amount", JsValue.vNull)] ∧
    processDocument 5 docC3 ≠ Except.ok [("Amount", JsValue.vStr "example_currency")] ∧
    generateExampleValue 2 (some [Component.mk (some "x") (some "Currency") none]) defsC3 =
      Except.ok (JsValue.vObj [("x", JsValue.vNull)]) := by
  have h : processDocument 5 docC3 = Except.ok [("Amount", JsValue.vNull)] := rfl
  refine ⟨h, ?_, rfl⟩
  rw [h]
  simp

/-- C2 counterexample: on the document docC2 the synthesized value for
the composite field b wraps the example of its primitive sub-field c in
an extra singleton mapping keyed c, so the output differs from the
claimed mapping in which c maps directly to its scalar example. -/
theorem claim_C2_counterexample :
    processDocument 6 docC2 =
      Except.ok [("X", JsValue.vObj [("b", JsValue.vObj
        [("c", JsValue.vObj [("c", JsValue.vStr "example_string")])])])] ∧
    processDocument 6 docC2 ≠
      Except.ok [("X", JsValue.vObj [("b",
        JsValue.vObj [("c", JsValue.vStr "example_string")])])] := by
  have h : processDocument 6 docC2 =
      Except.ok [("X", JsValue.vObj [("b", JsValue.vObj
        [("c", JsValue.vObj [("c", JsValue.vStr "example_string")])])])] := rfl
  refine ⟨h, ?_⟩
  rw [h]
  simp

/-- C5 counterexample: a component-less definition with base-type text
Number (capital N) synthesizes the string example_number, not the
number 0 that case-insensitive classification would give. -/
theorem claim_C5_counterexample :
    generateExampleValue 2 (some [Component.mk (some "x") (some "Age") none]) defsC5 =
      Except.ok (JsValue.vObj [("x", JsValue.vStr "example_number")]) ∧
    generateExampleValue 2 (some [Component.mk (some "x") (some "Age") none]) defsC5 ≠
      Except.ok (JsValue.vObj [("x", JsValue.vNum 0)]) := by
  have h : generateExampleValue 2 (some [Component.mk (some "x") (some "Age") none]) defsC5 =
      Except.ok (JsValue.vObj [("x", JsValue.vStr "example_number")]) := rfl
  refine ⟨h, ?_⟩
  rw [h]
  simp

/-- C7 counterexample: a definition whose allowed-values text has no
quoted substring falls back to the lowercased _typeRef attribute
default string, i.e. the plain text string, not the generic
classification result example_string. -/
theorem claim_C7_counterexample :
    generateExampleValue 2 (some [Component.mk (some "s") (some "Status") none]) defsC7 =
      Except.ok (JsValue.vObj [("s", JsValue.vStr "string")]) ∧
    generateExampleValue 2 (some [Component.mk (some "s") (some "Status") none]) defsC7 ≠
      Except.ok (JsValue.vObj [("s", JsValue.vStr "example_string")]) := by
  have h : generateExampleValue 2 (some [Component.mk (some "s") (some "Status") none]) defsC7 =
      Except.ok (JsValue.vObj [("s", JsValue.vStr "string")]) := rfl
  refine ⟨h, ?_⟩
  rw [h]
  simp

/-- C8 counterexample: on a document with one input and no declared
type definitions at all, the catalog lookup receives undefined and the
extraction fails with a thrown TypeError instead of reporting the name
as not found in the return value. -/
theorem claim_C8_counterexample :
    processDocument 5 docC8 =
      Except.error (EngineError.thrown "TypeError: cannot read find of undefined") := rfl

/-- A string assembled from a nonempty character list is nonempty. -/
theorem asString_ne_empty (l : List Char) (h : l ≠ []) : l.asString ≠ "" := by
  intro hc
  exact h (congrArg String.data hc)

/-- Every literal emitted by the quoted-run scanner is nonempty, since
the scanned pattern requires at least one character between quotes. -/
theorem extractQuotedAux_ne_empty :
    ∀ (cs : List Char) (st : Option (List Char)) (acc : List String),
      (∀ s ∈ acc, s ≠ "") → ∀ s ∈ extractQuotedAux cs st acc, s ≠ "" := by
  intro cs
  induction cs with
  | nil =>
      intro st acc hacc s hs
      rw [extractQuotedAux] at hs
      exact hacc s (List.mem_reverse.mp hs)
  | cons c rest ih =>
      intro st acc hacc s hs
      cases st with
      | none =>
          rw [extractQuotedAux] at hs
          split at hs
          · exact ih (some []) acc hacc s hs
          · exact ih none acc hacc s hs
      | some cur =>
          rw [extractQuotedAux] at hs
          split at hs
          · split at hs
            · exact ih (some []) acc hacc s hs
            · rename_i hcur
              refine ih none _ ?_ s hs
              intro s' hs'
              rcases List.mem_cons.mp hs' with h1 | h1
              · subst h1
                exact asString_ne_empty _ (fun hrev => hcur (List.reverse_eq_nil_iff.mp hrev))
              · exact hacc s' h1
          · exact ih (some (c :: cur)) acc hacc s hs

/-- Every extracted quoted literal is nonempty. -/
theorem extractQuoted_ne_empty (t : String) : ∀ s ∈ extractQuoted t, s ≠ "" := by
  intro s hs
  exact extractQuotedAux_ne_empty t.data none [] (by simp) s hs

/-- Inserting a fresh key appends the pair at the end of the object. -/
theorem objInsert_of_not_mem {α : Type} :
    ∀ (l : List (String × α)) (k : String) (v : α),
      k ∉ l.map Prod.fst → objInsert l k v = l ++ [(k, v)] := by
  intro l
  induction l with
  | nil => intro k v _; rfl
  | cons p rest ih =>
      intro k v h
      obtain ⟨k', v'⟩ := p
      rw [List.map_cons] at h
      have hne : k' ≠ k := fun he => h (by simp [he])
      simp only [objInsert, if_neg hne, List.cons_append]
      rw [ih k v (fun hm => h (List.mem_cons_of_mem _ hm))]

/-- Looking up the key just inserted yields the inserted value. -/
theorem objLookup_objInsert_self {α : Type} :
    ∀ (l : List (String × α)) (k : String) (v : α),
      objLookup (objInsert l k v) k = some v := by
  intro l
  induction l with
  | nil => intro k v; simp [objInsert, objLookup]
  | cons p rest ih =>
      intro k v
      obtain ⟨k', v'⟩ := p
      by_cases he : k' = k
      · simp [objInsert, objLookup, he]
      · simp [objInsert, objLookup, he, ih]

/-- Insertion at one key leaves lookups of other keys unchanged. -/
theorem objLookup_objInsert_ne {α : Type} :
    ∀ (l : List (String × α)) (k k' : String) (v : α), k ≠ k' →
      objLookup (objInsert l k v) k' = objLookup l k' := by
  intro l
  induction l with
  | nil => intro k k' v h; simp [objInsert, objLookup, h]
  | cons p rest ih =>
      intro k k' v h
      obtain ⟨ka, va⟩ := p
      by_cases he : ka = k
      · simp [objInsert, objLookup, he, h]
      · simp only [objInsert, if_neg he]
        by_cases he' : ka = k'
        · simp [objLookup, he']
        · simp [objLookup, he', ih _ _ _ h]

/-- Every entry of an insertion result is an old entry or the inserted
pair. -/
theorem mem_objInsert {α : Type} :
    ∀ (l : List (String × α)) (k : String) (v : α) (e : String × α),
      e ∈ objInsert l k v → e ∈ l ∨ e = (k, v) := by
  intro l
  induction l with
  | nil => intro k v e he; simp [objInsert] at he; right; exact he
  | cons p rest ih =>
      intro k v e he
      obtain ⟨ka, va⟩ := p
      by_cases hk : ka = k
      · simp only [objInsert, if_pos hk] at he
        rcases List.mem_cons.mp he with h1 | h1
        · right; rw [h1, hk]
        · left; exact List.mem_cons_of_mem _ h1
      · simp only [objInsert, if_neg hk] at he
        rcases List.mem_cons.mp he with h1 | h1
        · left; rw [h1]; exact List.mem_cons_self _ _
        · rcases ih k v e h1 with h2 | h2
          · left; exact List.mem_cons_of_mem _ h2
          · right; exact h2

/-- Insertion at a fixed key into a fixed object determines the stored
value. -/
theorem objInsert_value_inj {α : Type} :
    ∀ (l : List (String × α)) (k : String) (v v' : α),
      objInsert l k v = objInsert l k v' → v = v' := by
  intro l
  induction l with
  | nil => intro k v v' h; simpa [objInsert] using h
  | cons p rest ih =>
      intro k v v' h
      obtain ⟨ka, va⟩ := p
      by_cases hk : ka = k
      · simp only [objInsert, if_pos hk] at h
        exact (Prod.mk.injEq _ _ _ _ ▸ (List.cons.injEq _ _ _ _ ▸ h).1).2
      · simp only [objInsert, if_neg hk] at h
        exact ih k v v' (List.cons.injEq _ _ _ _ ▸ h).2

/-- A successful synthesis step stores exactly one value under the key
of its own component. -/
theorem gevStep_ok_objInsert
    (gev : Option (List Component) → List ItemDef → Except EngineError JsValue)
    (fid : List ItemDef → Option String → Except EngineError (Option (List Component)))
    (itemDefs : List ItemDef) (acc : List (String × JsValue)) (c : Component)
    (r : List (String × JsValue))
    (h : gevStep gev fid itemDefs acc c = Except.ok r) :
    ∃ v, r = objInsert acc (jsKey c.name) v := by
  unfold gevStep at h
  split at h
  · split at h
    · exact ⟨_, (Except.ok.inj h).symm⟩
    · split at h
      · cases hr : jsReduce (gevNestedStep gev fid itemDefs) [] _ with
        | error e => rw [hr] at h; exact absurd h (by simp [Except.map])
        | ok nested =>
            rw [hr] at h
            simp only [Except.map, Except.ok.injEq] at h
            exact ⟨_, h.symm⟩
      · exact ⟨_, (Except.ok.inj h).symm⟩
  · split at h
    · cases hg : gev c.components itemDefs with
      | error e => rw [hg] at h; exact absurd h (by simp [Except.map])
      | ok v =>
          rw [hg] at h
          simp only [Except.map, Except.ok.injEq] at h
          exact ⟨_, h.symm⟩
    · exact ⟨_, (Except.ok.inj h).symm⟩

/-- A successful synthesis of a singleton component list is an object
with exactly the key of that component. -/
theorem generateExampleValue_singleton (fuel : Nat) (itemDefs : List ItemDef)
    (c : Component) (v : JsValue)
    (h : generateExampleValue fuel (some [c]) itemDefs = Except.ok v) :
    ∃ w, v = JsValue.vObj [(jsKey c.name, w)] := by
  cases fuel with
  | zero => exact absurd h (by simp [generateExampleValue])
  | succ n =>
      rw [generateExampleValue] at h
      simp only [jsReduce] at h
      cases hs : gevStep (generateExampleValue n) (findItemDefinition n) itemDefs [] c with
      | error e => rw [hs] at h; exact absurd h (by simp [Except.map, Except.bind, bind])
      | ok r =>
          rw [hs] at h
          simp only [Except.bind, bind, jsReduce, Except.map, Except.ok.injEq] at h
          obtain ⟨w, hw⟩ := gevStep_ok_objInsert _ _ _ _ _ _ hs
          exact ⟨w, by rw [← h, hw]; rfl⟩

/-- Every entry produced by the nested reduce of the composite branch
wraps its value in a singleton object keyed by its own key. -/
theorem jsReduce_nested_wrapped
    (gev : Option (List Component) → List ItemDef → Except EngineError JsValue)
    (fid : List ItemDef → Option String → Except EngineError (Option (List Component)))
    (itemDefs : List ItemDef)
    (Hgev : ∀ (c : Component) (v : JsValue), gev (some [c]) itemDefs = Except.ok v →
      ∃ w, v = JsValue.vObj [(jsKey c.name, w)]) :
    ∀ (comps : List ItemComponent) (nestedAcc entries : List (String × JsValue)),
      jsReduce (gevNestedStep gev fid itemDefs) nestedAcc comps = Except.ok entries →
      (∀ e ∈ nestedAcc, ∃ w, e.2 = JsValue.vObj [(e.1, w)]) →
      ∀ e ∈ entries, ∃ w, e.2 = JsValue.vObj [(e.1, w)] := by
  intro comps
  induction comps with
  | nil =>
      intro nestedAcc entries h hacc
      simp only [jsReduce, Except.ok.injEq] at h
      rw [← h]
      exact hacc
  | cons comp rest ih =>
      intro nestedAcc entries h hacc
      simp only [jsReduce] at h
      cases hs : gevNestedStep gev fid itemDefs nestedAcc comp with
      | error e => rw [hs] at h; exact absurd h (by simp [Except.bind, bind])
      | ok acc' =>
          rw [hs] at h
          simp only [Except.bind, bind] at h
          unfold gevNestedStep at hs
          cases hsub : (if jsTruthy comp.dmnTypeRef then fid itemDefs comp.dmnTypeRef
              else Except.ok none) with
          | error e => rw [hsub] at hs; exact absurd hs (by simp [Except.bind])
          | ok sub =>
              rw [hsub] at hs
              simp only [Except.bind] at hs
              cases hv : gev (some [Component.mk comp.nameAttr comp.dmnTypeRef sub]) itemDefs with
              | error e => rw [hv] at hs; exact absurd hs (by simp [Except.map])
              | ok v =>
                  rw [hv] at hs
                  simp only [Except.map, Except.ok.injEq] at hs
                  obtain ⟨w, hw⟩ := Hgev _ _ hv
                  refine ih _ _ h ?_
                  intro e he
                  rw [← hs] at he
                  rcases mem_objInsert _ _ _ _ he with h1 | h1
                  · exact hacc e h1
                  · refine ⟨w, ?_⟩
                    rw [h1, hw]
                    rfl

/-- The synthesis reduce leaves lookups of keys outside the processed
component names unchanged. -/
theorem jsReduce_gevStep_preserve
    (gev : Option (List Component) → List ItemDef → Except EngineError JsValue)
    (fid : List ItemDef → Option String → Except EngineError (Option (List Component)))
    (itemDefs : List ItemDef) :
    ∀ (comps : List Component) (acc l : List (String × JsValue)) (k : String),
      jsReduce (gevStep gev fid itemDefs) acc comps = Except.ok l →
      k ∉ comps.map (fun c => jsKey c.name) →
      objLookup l k = objLookup acc k := by
  intro comps
  induction comps with
  | nil =>
      intro acc l k h _
      simp only [jsReduce, Except.ok.injEq] at h
      rw [← h]
  | cons c rest ih =>
      intro acc l k h hk
      simp only [jsReduce] at h
      cases hs : gevStep gev fid itemDefs acc c with
      | error e => rw [hs] at h; exact absurd h (by simp [Except.bind, bind])
      | ok acc' =>
          rw [hs] at h
          simp only [Except.bind, bind] at h
          obtain ⟨v, hv⟩ := gevStep_ok_objInsert _ _ _ _ _ _ hs
          rw [List.map_cons] at hk
          have hk1 : k ≠ jsKey c.name := fun he => hk (he ▸ List.mem_cons_self _ _)
          have hk2 : k ∉ rest.map (fun c => jsKey c.name) :=
            fun hm => hk (List.mem_cons_of_mem _ hm)
          rw [ih acc' l k h hk2, hv,
            objLookup_objInsert_ne _ _ _ _ (fun he => hk1 he.symm)]

/-- Main invariant of the synthesis reduce: with pairwise distinct keys
the produced object has exactly the component keys in order, and each
key stores a value with whatever property the individual steps
guarantee. -/
theorem jsReduce_gevStep_main
    (gev : Option (List Component) → List ItemDef → Except EngineError JsValue)
    (fid : List ItemDef → Option String → Except EngineError (Option (List Component)))
    (itemDefs : List ItemDef) (P : Component → JsValue → Prop) :
    ∀ (comps : List Component) (acc l : List (String × JsValue)),
      (∀ (acc' : List (String × JsValue)) (c : Component) (r : List (String × JsValue)),
        c ∈ comps → gevStep gev fid itemDefs acc' c = Except.ok r →
        ∃ v, r = objInsert acc' (jsKey c.name) v ∧ P c v) →
      jsReduce (gevStep gev fid itemDefs) acc comps = Except.ok l →
      (acc.map Prod.fst ++ comps.map (fun c => jsKey c.name)).Nodup →
      l.map Prod.fst = acc.map Prod.fst ++ comps.map (fun c => jsKey c.name) ∧
      ∀ c ∈ comps, ∃ v, objLookup l (jsKey c.name) = some v ∧ P c v := by
  intro comps
  induction comps with
  | nil =>
      intro acc l _ h _
      simp only [jsReduce, Except.ok.injEq] at h
      constructor
      · rw [← h]; simp
      · intro c hc; exact absurd hc (List.not_mem_nil c)
  | cons c rest ih =>
      intro acc l hstep h hnd
      simp only [jsReduce] at h
      cases hs : gevStep gev fid itemDefs acc c with
      | error e => rw [hs] at h; exact absurd h (by simp [Except.bind, bind])
      | ok acc' =>
          rw [hs] at h
          simp only [Except.bind, bind] at h
          obtain ⟨v, hv, hP⟩ := hstep acc c acc' (List.mem_cons_self _ _) hs
          rw [List.map_cons] at hnd
          have hnotin_acc : jsKey c.name ∉ acc.map Prod.fst := by
            intro hmem
            exact (List.nodup_append.mp hnd).2.2 hmem (List.mem_cons_self _ _)
          have hmapacc' : acc'.map Prod.fst = acc.map Prod.fst ++ [jsKey c.name] := by
            rw [hv, objInsert_of_not_mem _ _ _ hnotin_acc, List.map_append]
            rfl
          have hnd' : (acc'.map Prod.fst ++ rest.map (fun c => jsKey c.name)).Nodup := by
            rw [hmapacc', List.append_assoc, List.singleton_append]
            exact hnd
          obtain ⟨hkeys, hlook⟩ :=
            ih acc' l (fun a c' r hc' hs' => hstep a c' r (List.mem_cons_of_mem _ hc') hs') h hnd'
          have hnotin_rest : jsKey c.name ∉ rest.map (fun c => jsKey c.name) := by
            have h2 := (List.nodup_append.mp hnd).2.1
            exact (List.nodup_cons.mp h2).1
          constructor
          · rw [hkeys, hmapacc', List.append_assoc, List.singleton_append, List.map_cons]
          · intro c' hc'
            rcases List.mem_cons.mp hc' with h1 | h1
            · subst h1
              refine ⟨v, ?_, hP⟩
              rw [jsReduce_gevStep_preserve gev fid itemDefs rest acc' l _ h hnotin_rest, hv,
                objLookup_objInsert_self]
            · exact hlook c' h1

/-- C4 (code bug): on the cyclic catalog defsC4 resolution of A exceeds
every recursion bound, so the unguarded source recursion does not
terminate; no placeholder is ever produced for the cyclic branch. -/
theorem claim_C4_cycle_divergence :
    ∀ fuel, findItemDefinition fuel defsC4 (some "A") = Except.error EngineError.outOfFuel := by
  intro fuel
  induction fuel with
  | zero => rfl
  | succ n ih =>
      have h1 : findItemDefinition (n + 1) defsC4 (some "A") =
          (fidMapComponents (findItemDefinition n defsC4)
            [ItemComponent.mk (some "x") (some "A")]).map some := rfl
      rw [h1]
      have h2 : fidMapComponents (findItemDefinition n defsC4)
          [ItemComponent.mk (some "x") (some "A")] =
          (findItemDefinition n defsC4 (some "A")).bind (fun comps =>
            (fidMapComponents (findItemDefinition n defsC4) []).bind (fun tail =>
              pure (Component.mk (some "x") (some "A") comps :: tail))) := rfl
      rw [h2, ih]
      rfl

/-- C8 amended: whenever the type-definition list is present, a lookup
of a name matching no entry returns the null marker in the ordinary
return value and never throws. -/
theorem claim_C8_amended (fuel : Nat) (defs : List ItemDef) (typeRef : Option String)
    (h : defs.find? (fun d => d.nameAttr == typeRef) = none) :
    findItemDefinition (fuel + 1) defs typeRef = Except.ok none := by
  simp [findItemDefinition, h]

/-- Witness for the amended C8 theorem: looking up the primitive
keyword string in the Applicant catalog reports not found. -/
theorem claim_C8_witness :
    findItemDefinition 1 defsC1 (some "string") = Except.ok none :=
  claim_C8_amended 0 defsC1 (some "string") rfl

/-- C10: an input typeRef matching a catalog definition with zero item
components resolves to the empty component list and synthesizes to the
empty object, so the output for that input is the empty mapping. -/
theorem claim_C10_componentless_definition_empty_object (fuel : Nat) (nm : String)
    (tr : Option String) (defs : List ItemDef) (d : ItemDef)
    (hfind : defs.find? (fun dd => dd.nameAttr == tr) = some d)
    (hnc : d.dmnItemComponent.getD [] = []) :
    findItemDefinition (fuel + 1) defs tr = Except.ok (some []) ∧
    generateExampleValue (fuel + 1) (some []) defs = Except.ok (JsValue.vObj []) ∧
    processDocument (fuel + 1)
        (Document.mk (some (Definitions.mk
          (some [InputData.mk (some nm) (some (DmnVariable.mk tr)) none]) (some defs)))) =
      Except.ok [(nm, JsValue.vObj [])] := by
  have h1 : findItemDefinition (fuel + 1) defs tr = Except.ok (some []) := by
    simp [findItemDefinition, hfind, hnc, fidMapComponents, Except.map]
  have h2 : generateExampleValue (fuel + 1) (some []) defs = Except.ok (JsValue.vObj []) := rfl
  refine ⟨h1, h2, ?_⟩
  simp [processDocument, extract, jsReduce, h1, h2, objInsert, jsKey, Except.map, Except.bind,
    bind, pure, Except.pure]

/-- Witness for the C10 theorem: an input of type Number over the
Applicant catalog yields the empty mapping. -/
theorem claim_C10_witness :
    findItemDefinition 1 defsC1 (some "Number") = Except.ok (some []) ∧
    generateExampleValue 1 (some []) defsC1 = Except.ok (JsValue.vObj []) ∧
    processDocument 1 (Document.mk (some (Definitions.mk
      (some [InputData.mk (some "X") (some (DmnVariable.mk (some "Number"))) none])
      (some defsC1)))) = Except.ok [("X", JsValue.vObj [])] :=
  claim_C10_componentless_definition_empty_object 0 "X" (some "Number") defsC1
    (ItemDef.mk (some "Number") none none (some "number") none) rfl rfl

/-- C5 amended: base-type classification is case-sensitive, giving 0
exactly for the text number and true exactly for the text boolean, and
the example_-prefixed lowercased text for every other nonempty base
type, with an absent base type treated as string. -/
theorem claim_C5_amended (fuel : Nat) (nm t : String)
    (ht : t ≠ "") (hn : t ≠ "number") (hb : t ≠ "boolean") :
    generateExampleValue (fuel + 1) (some [Component.mk (some nm) (some "T") none])
        [ItemDef.mk (some "T") none none (some t) none] =
      Except.ok (JsValue.vObj [(nm, JsValue.vStr ("example_" ++ jsToLower t))]) ∧
    generateExampleValue (fuel + 1) (some [Component.mk (some nm) (some "T") none])
        [ItemDef.mk (some "T") none none (some "number") none] =
      Except.ok (JsValue.vObj [(nm, JsValue.vNum 0)]) ∧
    generateExampleValue (fuel + 1) (some [Component.mk (some nm) (some "T") none])
        [ItemDef.mk (some "T") none none (some "boolean") none] =
      Except.ok (JsValue.vObj [(nm, JsValue.vBool true)]) ∧
    generateExampleValue (fuel + 1) (some [Component.mk (some nm) (some "T") none])
        [ItemDef.mk (some "T") none none none none] =
      Except.ok (JsValue.vObj [(nm, JsValue.vStr "example_string")]) := by
  refine ⟨?_, rfl, rfl, rfl⟩
  have h1 : generateExampleValue (fuel + 1) (some [Component.mk (some nm) (some "T") none])
      [ItemDef.mk (some "T") none none (some t) none] =
      Except.ok (JsValue.vObj [(nm, exampleForType ((jsOr (some t) none).getD "string"))]) := rfl
  have h2 : jsOr (some t) none = some t := by simp [jsOr, jsTruthy, ht]
  rw [h1, h2]
  simp [Option.getD, exampleForType, hn, hb]

/-- Witness for the amended C5 theorem: base-type text Number yields
the string example_number. -/
theorem claim_C5_witness :
    generateExampleValue 1 (some [Component.mk (some "x") (some "T") none])
        [ItemDef.mk (some "T") none none (some "Number") none] =
      Except.ok (JsValue.vObj [("x", JsValue.vStr "example_number")]) :=
  (claim_C5_amended 0 "x" "Number" (by decide) (by decide) (by decide)).1

/-- C6: a component-less definition carrying an allowed-values text
with at least one quoted substring synthesizes the first quoted literal
with its quotes stripped and no further transformation. -/
theorem claim_C6_first_quoted_literal (fuel : Nat) (tn nm text : String) (tr : Option String)
    (v : String) (vs : List String)
    (htn : tn ≠ "") (hq : extractQuoted text = v :: vs) :
    generateExampleValue (fuel + 1) (some [Component.mk (some nm) (some tn) none])
        [ItemDef.mk (some tn) none (some [AllowedValue.mk (some text)]) none tr] =
      Except.ok (JsValue.vObj [(nm, JsValue.vStr v)]) := by
  have hv : v ≠ "" := extractQuoted_ne_empty text v (by rw [hq]; exact List.mem_cons_self v vs)
  simp [generateExampleValue, jsReduce, gevStep, Component.typeRef, Component.name, jsTruthy, htn,
    jsKey, allowedValuesExample, hq, hv, objInsert, Except.map, Except.bind, bind]

/-- Witness for the C6 theorem: the Status type with allowed-values
text listing Active and Inactive in quotes synthesizes Active. -/
theorem claim_C6_witness :
    generateExampleValue 1 (some [Component.mk (some "status") (some "Status") none])
        [ItemDef.mk (some "Status") none
          (some [AllowedValue.mk (some "\"Active\" \"Inactive\"")]) none none] =
      Except.ok (JsValue.vObj [("status", JsValue.vStr "Active")]) :=
  claim_C6_first_quoted_literal 0 "Status" "status" "\"Active\" \"Inactive\"" none
    "Active" ["Inactive"] (by decide) rfl

/-- C7 amended: an allowed-values text without any quoted substring
does not fail but yields the lowercased _typeRef attribute of the
definition, defaulting to the plain text string, rather than the
generic example_-prefixed classification. -/
theorem claim_C7_amended (fuel : Nat) (tn nm text : String) (tr : Option String)
    (htn : tn ≠ "") (hq : extractQuoted text = []) :
    generateExampleValue (fuel + 1) (some [Component.mk (some nm) (some tn) none])
        [ItemDef.mk (some tn) none (some [AllowedValue.mk (some text)]) none tr] =
      Except.ok (JsValue.vObj [(nm, JsValue.vStr (jsToLower (tr.getD "string")))]) := by
  simp [generateExampleValue, jsReduce, gevStep, Component.typeRef, Component.name, jsTruthy, htn,
    jsKey, allowedValuesExample, hq, objInsert, Except.map, Except.bind, bind]

/-- Witness for the amended C7 theorem: the quoteless Status
allowed-values text yields the plain lowercased default string. -/
theorem claim_C7_witness :
    generateExampleValue 1 (some [Component.mk (some "s") (some "Status") none])
        [ItemDef.mk (some "Status") none
          (some [AllowedValue.mk (some "Active, Inactive")]) none none] =
      Except.ok (JsValue.vObj [("s", JsValue.vStr "string")]) :=
  claim_C7_amended 0 "Status" "s" "Active, Inactive" none (by decide) rfl

/-- C9: the extraction is a pure function of the parsed document; on a
successful run the resulting state is independent of the incoming
component state, a second run of the upload handler reproduces the same
state, and the stored schema is the extraction result. -/
theorem claim_C9_pure_extraction (fuel : Nat) (st1 st2 : AppState) (fileName : String)
    (doc : Document) (schema : List (String × JsValue))
    (hfn : jsEndsWith fileName ".dmn" = true)
    (hok : processDocument fuel doc = Except.ok schema) :
    handleFileUpload fuel st1 fileName doc = handleFileUpload fuel st2 fileName doc ∧
    handleFileUpload fuel (handleFileUpload fuel st1 fileName doc) fileName doc =
      handleFileUpload fuel st1 fileName doc ∧
    (handleFileUpload fuel st1 fileName doc).jsonSchema = some schema := by
  simp [handleFileUpload, hfn, hok]

/-- Witness for the C9 theorem: uploading the Applicant document twice
from two different states produces one identical resulting state. -/
theorem claim_C9_witness :
    handleFileUpload 6 (AppState.mk none false []) "model.dmn" docC1 =
      handleFileUpload 6 (AppState.mk (some []) true [("a", "b")]) "model.dmn" docC1 ∧
    handleFileUpload 6 (handleFileUpload 6 (AppState.mk none false []) "model.dmn" docC1)
        "model.dmn" docC1 =
      handleFileUpload 6 (AppState.mk none false []) "model.dmn" docC1 ∧
    (handleFileUpload 6 (AppState.mk none false []) "model.dmn" docC1).jsonSchema =
      some [("Applicant",
        JsValue.vObj [("name", JsValue.vStr "example_string"), ("age", JsValue.vNum 0)])] :=
  claim_C9_pure_extraction 6 (AppState.mk none false []) (AppState.mk (some []) true [("a", "b")])
    "model.dmn" docC1 _ rfl rfl


theorem gevStep_branch2
    (gev : Option (List Component) → List ItemDef → Except EngineError JsValue)
    (fid : List ItemDef → Option String → Except EngineError (Option (List Component)))
    (itemDefs : List ItemDef) (acc : List (String × JsValue)) (c : Component)
    (r : List (String × JsValue)) (d : ItemDef)
    (ht : jsTruthy c.typeRef = true)
    (hf : itemDefs.find? (fun dd => dd.nameAttr == c.typeRef) = some d)
    (hl : 0 < (d.dmnItemComponent.getD []).length)
    (h : gevStep gev fid itemDefs acc c = Except.ok r) :
    ∃ entries, r = objInsert acc (jsKey c.name) (JsValue.vObj entries) ∧
      jsReduce (gevNestedStep gev fid itemDefs) [] (d.dmnItemComponent.getD []) =
        Except.ok entries := by
  unfold gevStep at h
  rw [if_pos ht, hf] at h
  dsimp only at h
  cases hcomp : d.dmnItemComponent.getD [] with
  | nil => rw [hcomp] at hl; exact absurd hl (by simp)
  | cons x xs =>
      rw [hcomp] at h
      simp only [List.isEmpty_cons, Bool.false_and, if_neg, Bool.false_eq_true,
        if_false, List.length_cons] at h
      rw [if_pos (by simp)] at h
      cases hr : jsReduce (gevNestedStep gev fid itemDefs) [] (x :: xs) with
      | error e => rw [hr] at h; exact absurd h (by simp [Except.map])
      | ok entries =>
          rw [hr] at h
          simp only [Except.map, Except.ok.injEq] at h
          exact ⟨entries, h.symm, rfl⟩

theorem gevStep_branch3
    (gev : Option (List Component) → List ItemDef → Except EngineError JsValue)
    (fid : List ItemDef → Option String → Except EngineError (Option (List Component)))
    (itemDefs : List ItemDef) (acc : List (String × JsValue)) (c : Component)
    (r : List (String × JsValue)) (d : ItemDef)
    (ht : jsTruthy c.typeRef = true)
    (hf : itemDefs.find? (fun dd => dd.nameAttr == c.typeRef) = some d)
    (hl0 : (d.dmnItemComponent.getD []).length = 0)
    (hav : d.dmnAllowedValues = none)
    (h : gevStep gev fid itemDefs acc c = Except.ok r) :
    r = objInsert acc (jsKey c.name)
      (exampleForType ((jsOr d.dmnTypeRef d.typeRefAttr).getD "string")) := by
  unfold gevStep at h
  rw [if_pos ht, hf] at h
  dsimp only at h
  have hnil : d.dmnItemComponent.getD [] = [] := List.length_eq_zero.mp hl0
  rw [hnil, hav] at h
  simp only [List.isEmpty_nil, Option.isSome_none, Bool.and_false, Bool.false_eq_true,
    if_false, List.length_nil, Nat.lt_irrefl] at h
  exact (Except.ok.inj h).symm


theorem claim_C2_amended (fuel : Nat) (comps : List Component) (itemDefs : List ItemDef)
    (l : List (String × JsValue))
    (hok : generateExampleValue fuel (some comps) itemDefs = Except.ok (JsValue.vObj l))
    (hnd : (comps.map (fun c => jsKey c.name)).Nodup) :
    l.map Prod.fst = comps.map (fun c => jsKey c.name) ∧
    (∀ c ∈ comps, ∀ d : ItemDef, jsTruthy c.typeRef = true →
      itemDefs.find? (fun dd => dd.nameAttr == c.typeRef) = some d →
      0 < (d.dmnItemComponent.getD []).length →
      ∃ entries, objLookup l (jsKey c.name) = some (JsValue.vObj entries) ∧
        ∀ e ∈ entries, ∃ w, e.2 = JsValue.vObj [(e.1, w)]) ∧
    (∀ c ∈ comps, ∀ d : ItemDef, jsTruthy c.typeRef = true →
      itemDefs.find? (fun dd => dd.nameAttr == c.typeRef) = some d →
      (d.dmnItemComponent.getD []).length = 0 → d.dmnAllowedValues = none →
      objLookup l (jsKey c.name) =
        some (exampleForType ((jsOr d.dmnTypeRef d.typeRefAttr).getD "string"))) := by
  cases fuel with
  | zero => exact absurd hok (by simp [generateExampleValue])
  | succ n =>
      rw [generateExampleValue] at hok
      dsimp only at hok
      cases hr : jsReduce (gevStep (generateExampleValue n) (findItemDefinition n) itemDefs)
          [] comps with
      | error e => rw [hr] at hok; exact absurd hok (by simp [Except.map])
      | ok l' =>
          rw [hr] at hok
          simp only [Except.map, Except.ok.injEq] at hok
          have hr2 : jsReduce (gevStep (generateExampleValue n) (findItemDefinition n)
              itemDefs) [] comps = Except.ok l := by
            rw [hr, JsValue.vObj.inj hok]
          have hstep : ∀ (acc' : List (String × JsValue)) (c : Component)
              (r : List (String × JsValue)), c ∈ comps →
              gevStep (generateExampleValue n) (findItemDefinition n) itemDefs acc' c =
                Except.ok r →
              ∃ v, r = objInsert acc' (jsKey c.name) v ∧
                ((∀ d : ItemDef, jsTruthy c.typeRef = true →
                  itemDefs.find? (fun dd => dd.nameAttr == c.typeRef) = some d →
                  0 < (d.dmnItemComponent.getD []).length →
                  ∃ entries, v = JsValue.vObj entries ∧
                    ∀ e ∈ entries, ∃ w, e.2 = JsValue.vObj [(e.1, w)]) ∧
                 (∀ d : ItemDef, jsTruthy c.typeRef = true →
                  itemDefs.find? (fun dd => dd.nameAttr == c.typeRef) = some d →
                  (d.dmnItemComponent.getD []).length = 0 → d.dmnAllowedValues = none →
                  v = exampleForType ((jsOr d.dmnTypeRef d.typeRefAttr).getD "string"))) := by
            intro acc' c r _ hs
            obtain ⟨v, hv⟩ := gevStep_ok_objInsert _ _ _ _ _ _ hs
            refine ⟨v, hv, ?_, ?_⟩
            · intro d ht hf hl
              obtain ⟨entries, hre, hred⟩ := gevStep_branch2 _ _ _ _ _ _ _ ht hf hl hs
              have hv2 : v = JsValue.vObj entries :=
                objInsert_value_inj _ _ _ _ (hv.symm.trans hre)
              refine ⟨entries, hv2, ?_⟩
              exact jsReduce_nested_wrapped _ _ _
                (fun c' v' h' => generateExampleValue_singleton n itemDefs c' v' h') _ _ _
                hred (by simp)
            · intro d ht hf hl0 hav
              have hre := gevStep_branch3 _ _ _ _ _ _ _ ht hf hl0 hav hs
              exact objInsert_value_inj _ _ _ _ (hv.symm.trans hre)
          obtain ⟨hkeys, hlook⟩ := jsReduce_gevStep_main _ _ _ _ comps [] l hstep hr2
            (by simpa using hnd)
          refine ⟨by simpa using hkeys, ?_, ?_⟩
          · intro c hc d ht hf hl
            obtain ⟨v, hvl, hPv⟩ := hlook c hc
            obtain ⟨entries, hve, hwrap⟩ := hPv.1 d ht hf hl
            exact ⟨entries, by rw [hvl, hve], hwrap⟩
          · intro c hc d ht hf hl0 hav
            obtain ⟨v, hvl, hPv⟩ := hlook c hc
            rw [hvl, hPv.2 d ht hf hl0 hav]

theorem claim_C2_witness :
    ([("b", JsValue.vObj [("c", JsValue.vObj [("c", JsValue.vStr "example_string")])])].map
      Prod.fst) = [Component.mk (some "b") (some "B") none].map (fun c => jsKey c.name) :=
  (claim_C2_amended 3 [Component.mk (some "b") (some "B") none] defsC2
    [("b", JsValue.vObj [("c", JsValue.vObj [("c", JsValue.vStr "example_string")])])]
    rfl (by simp [jsKey, Component.name])).1

end Transporter
